import Mathlib

/-!
Shallow embedding of the tile cache and feature encoding pipeline of
src/jni/tiler.cpp (geojson-vt-cpp JNI tiler): the attribute encoder
(handleFeatureProperties), the geometry encoders (handlePolygonFeature,
handleLineStringFeature), the per-feature dispatch (handleFeature), the
tile assembly of getTile, and the process-wide registry (std::map
tilesIndexMap) manipulated by load, unload and getTile.

Machine integers: tile-local coordinates are int16_t values promoted to
int before any arithmetic the code performs (the sentinel offsets +1/+2
never overflow an int), so points carry mathematical integers.  uint64_t
attribute payloads are carried as Nat; the encoder only moves them, never
computes with them.  A double attribute payload is carried as its raw
64-bit pattern (a Nat): the encoder passes it through uninterpreted.
-/

/-- A tile-local point as streamed to the vtzero builder
(vtzero::point holds the two coordinates). -/
structure Point where
  x : Int
  y : Int
  deriving DecidableEq, Repr

/-- Mirrors mapbox::geometry::geometry of int16_t: a tagged variant whose
which() is the zero-based declaration index
(point = 0, line_string = 1, polygon = 2, multi_point = 3,
multi_line_string = 4, multi_polygon = 5, geometry_collection = 6). -/
inductive Geometry where
  | point (p : Point)
  | lineString (ls : List Point)
  | polygon (rings : List (List Point))
  | multiPoint (ps : List Point)
  | multiLineString (lss : List (List Point))
  | multiPolygon (polys : List (List (List Point)))
  | geometryCollection (gs : List Geometry)

/-- The runtime tag returned by the mapbox variant which() member:
the zero-based index of the held alternative. -/
def Geometry.which : Geometry → Nat
  | .point _ => 0
  | .lineString _ => 1
  | .polygon _ => 2
  | .multiPoint _ => 3
  | .multiLineString _ => 4
  | .multiPolygon _ => 5
  | .geometryCollection _ => 6

/-- Mirrors mapbox::feature::value, the variant behind a feature's
property map: null = 0, bool = 1, uint64_t = 2, int64_t = 3, double = 4,
std::string = 5, array = 6, object = 7 in which() order. -/
inductive PropValue where
  | nullValue
  | boolean (b : Bool)
  | uint (n : Nat)
  | sint (n : Int)
  | double (bits : Nat)
  | str (s : String)
  | arrayValue (elems : List PropValue)
  | objectValue (entries : List (String × PropValue))

/-- which() of the property variant: zero-based declaration index. -/
def PropValue.which : PropValue → Nat
  | .nullValue => 0
  | .boolean _ => 1
  | .uint _ => 2
  | .sint _ => 3
  | .double _ => 4
  | .str _ => 5
  | .arrayValue _ => 6
  | .objectValue _ => 7

/-- A feature as delivered by GeoJSONVT::getTile: a geometry variant and
the property map in its storage iteration order. -/
structure Feature where
  geometry : Geometry
  properties : List (String × PropValue)

/-- Errors the encoding pipeline can surface.  unknownVariant is the
runtime_error thrown for an unhandled property tag; badGet models a
mapbox variant get on the wrong alternative; outOfBounds models the
out-of-range vector indexing polygon[0][0] performed on an empty
polygon or an empty first ring. -/
inductive EncodeError where
  | unknownVariant
  | badGet
  | outOfBounds
  deriving DecidableEq, Repr

/-- One wire-format property entry as handed to
vtzero feature_builder add_property, tagged by the overload chosen. -/
inductive EncodedProp where
  | uintProp (k : String) (v : Nat)
  | doubleProp (k : String) (bits : Nat)
  | strProp (k : String) (s : String)
  deriving DecidableEq, Repr

/-- What the vtzero builder records for one polygon ring: the count
declared by add_ring followed by the points actually streamed. -/
structure EncodedRing where
  declared : Nat
  points : List Point
  deriving DecidableEq, Repr

/-- The geometry stream recorded by the vtzero feature builder. -/
inductive EncodedGeom where
  | lineString (declared : Nat) (points : List Point)
  | polygon (rings : List EncodedRing)

/-- One committed feature in the output layer. -/
structure EncodedFeature where
  geom : EncodedGeom
  props : List EncodedProp

/-- The assembled tile: the single layer built by getTile. -/
structure EncodedTile where
  layerName : String
  features : List EncodedFeature

/-- handleFeatureProperties: iterate the property map; which() = 2
(uint64_t), 4 (double) and 5 (string) are added via the matching
add_property overload, every other tag falls to the default case and
throws runtime_error("Unknown variant type"). -/
def handleFeatureProperties : List (String × PropValue) → Except EncodeError (List EncodedProp)
  | [] => .ok []
  | (k, v) :: rest =>
    match v with
    | .uint n =>
      match handleFeatureProperties rest with
      | .ok eps => .ok (.uintProp k n :: eps)
      | .error e => .error e
    | .double bits =>
      match handleFeatureProperties rest with
      | .ok eps => .ok (.doubleProp k bits :: eps)
      | .error e => .error e
    | .str s =>
      match handleFeatureProperties rest with
      | .ok eps => .ok (.strProp k s :: eps)
      | .error e => .error e
    | _ => .error .unknownVariant

/-- The inner point loop of handlePolygonFeature over one ring: each
current point is compared with previous; it is streamed via set_point
only when it differs, and previous is updated unconditionally.  Returns
the streamed points and the final value of previous. -/
def ringStep (prev : Point) : List Point → List Point × Point
  | [] => ([], prev)
  | p :: rest =>
    let r := ringStep p rest
    if p = prev then r else (p :: r.1, r.2)

/-- The sentinel previous point handlePolygonFeature starts from:
offset (+1, +2) from the first vertex of the first ring. -/
def sentinel (p : Point) : Point := ⟨p.x + 1, p.y + 2⟩

/-- The ring loop of handlePolygonFeature: for each ring, add_ring
declares the raw ring size, then the ring's points are streamed with
deduplication; the previous point carries across rings. -/
def ringsEmit (prev : Point) : List (List Point) → List EncodedRing
  | [] => []
  | r :: rs => ⟨r.length, (ringStep prev r).1⟩ :: ringsEmit (ringStep prev r).2 rs

/-- handlePolygonFeature: reads polygon[0][0] to build the sentinel
before anything else (out of bounds for an empty polygon or an empty
first ring), streams every ring, then encodes the properties and
commits.  A property error propagates and the feature is not
committed. -/
def handlePolygonFeature (f : Feature) : Except EncodeError (Option EncodedFeature) :=
  match f.geometry with
  | .polygon rings =>
    match rings.head? with
    | none => .error .outOfBounds
    | some r0 =>
      match r0.head? with
      | none => .error .outOfBounds
      | some p0 =>
        match handleFeatureProperties f.properties with
        | .error e => .error e
        | .ok eps => .ok (some ⟨.polygon (ringsEmit (sentinel p0) rings), eps⟩)
  | _ => .error .badGet

/-- Sum of squared segment lengths of a line string.

Modelled from the spec: the function measure lives in util.hpp, which is
not part of src/; the spec defines it as the sum of Euclidean segment
lengths in tile-local coordinates, compared against exactly 0.0.  A sum
of square roots of the integer quantities dx*dx + dy*dy is exactly zero
iff every summand is zero, so the integer sum of squared lengths is zero
exactly when measure returns 0.0. -/
def measureSq : List Point → Nat
  | p :: q :: rest => ((q.x - p.x) ^ 2 + (q.y - p.y) ^ 2).toNat + measureSq (q :: rest)
  | _ => 0

/-- handleLineStringFeature: return early (no builder created, nothing
emitted, no commit) when the measured length is exactly zero; otherwise
declare the raw point count via add_linestring and stream every point in
order, then encode the properties and commit. -/
def handleLineStringFeature (f : Feature) : Except EncodeError (Option EncodedFeature) :=
  match f.geometry with
  | .lineString ls =>
    if measureSq ls = 0 then .ok none
    else
      match handleFeatureProperties f.properties with
      | .error e => .error e
      | .ok eps => .ok (some ⟨.lineString ls.length ls, eps⟩)
  | _ => .error .badGet

/-- handleFeature: switch on geometry which(); case 1 is the line-string
path and case 2 the polygon path.  The default branch of the switch is
commented out in the source, so every other tag falls through and the
feature contributes nothing. -/
def handleFeature (f : Feature) : Except EncodeError (Option EncodedFeature) :=
  if f.geometry.which = 1 then handleLineStringFeature f
  else if f.geometry.which = 2 then handlePolygonFeature f
  else .ok none

/-- The feature loop of getTile: encode each feature of the ResultTile
in order; a thrown error aborts the whole loop, a feature that
contributes nothing is passed over. -/
def encodeFeatures : List Feature → Except EncodeError (List EncodedFeature)
  | [] => .ok []
  | f :: fs =>
    match handleFeature f with
    | .error e => .error e
    | .ok none => encodeFeatures fs
    | .ok (some ef) =>
      match encodeFeatures fs with
      | .error e => .error e
      | .ok rest => .ok (ef :: rest)

/-- The spatial index built by GeoJSONVT at load time, opaque to this
core beyond its getTile(z, x, y) query returning the tile's features. -/
def SpatialIndex : Type := Int → Int → Int → List Feature

/-- std::map find: first entry with the given key, if any. -/
def mapFind {α : Type} (m : List (String × α)) (k : String) : Option α :=
  match m with
  | [] => none
  | (k0, v0) :: rest => if k = k0 then some v0 else mapFind rest k

/-- std::map insert: a no-op when the key is already present, otherwise
the new pair is added. -/
def mapInsert {α : Type} (m : List (String × α)) (k : String) (v : α) : List (String × α) :=
  match m with
  | [] => [(k, v)]
  | (k0, v0) :: rest => if k = k0 then (k0, v0) :: rest else (k0, v0) :: mapInsert rest k v

/-- std::map erase by key: removes the entry for the key if present. -/
def mapErase {α : Type} (m : List (String × α)) (k : String) : List (String × α) :=
  match m with
  | [] => []
  | (k0, v0) :: rest => if k = k0 then rest else (k0, v0) :: mapErase rest k

/-- Registry effect of Tiler load: the file read, GeoJSON parse and
index build are external collaborators; on their success the built index
is inserted into tilesIndexMap under the key. -/
def tilerLoad (m : List (String × SpatialIndex)) (k : String) (idx : SpatialIndex) :
    List (String × SpatialIndex) :=
  mapInsert m k idx

/-- Registry effect of Tiler unload: erase the key from tilesIndexMap. -/
def tilerUnload (m : List (String × SpatialIndex)) (k : String) :
    List (String × SpatialIndex) :=
  mapErase m k

/-- Errors getTile can surface: the invalid_argument thrown for an
unregistered key (carrying its message) or an encoding error. -/
inductive TileError where
  | lookupError (msg : String)
  | encodeError (e : EncodeError)

/-- The fixed prefix of the lookup failure message thrown by getTile. -/
def keyMissingPre : String := "Key doesn" ++ Char.toString (Char.ofNat 39) ++ "t exist:"

/-- The full lookup failure message: the prefix followed by the key. -/
def keyMissingMsg (k : String) : String := keyMissingPre ++ k

/-- getTile: resolve the key in tilesIndexMap (throwing the lookup error
when absent), query the index for the ResultTile, build one layer named
"default", run the feature loop and serialize. -/
def tilerGetTile (m : List (String × SpatialIndex)) (k : String) (z x y : Int) :
    Except TileError EncodedTile :=
  match mapFind m k with
  | none => .error (.lookupError (keyMissingMsg k))
  | some idx =>
    match encodeFeatures (idx z x y) with
    | .error e => .error (.encodeError e)
    | .ok efs => .ok ⟨"default", efs⟩

/-- Spec-side encoding of one property entry: defined for the three tags
the encoder handles, none for every other tag. -/
def encodeProp : String × PropValue → Option EncodedProp
  | (k, .uint n) => some (.uintProp k n)
  | (k, .double bits) => some (.doubleProp k bits)
  | (k, .str s) => some (.strProp k s)
  | _ => none

/-- Spec-side encoding of a whole property map: the pointwise encoding
when every entry is supported, none otherwise. -/
def encodeAll : List (String × PropValue) → Option (List EncodedProp)
  | [] => some []
  | kv :: rest =>
    match encodeProp kv, encodeAll rest with
    | some ep, some eps => some (ep :: eps)
    | _, _ => none

/-- Spec-side predicate for the features the encoder keeps: a line
string of nonzero measured length, or a polygon; every other geometry
tag contributes nothing. -/
def keptFeature (f : Feature) : Bool :=
  match f.geometry with
  | .lineString ls => if measureSq ls = 0 then false else true
  | .polygon _ => true
  | _ => false

/-- Number of adjacent duplicate pairs in a ring, counted as the loop
does: position k duplicates position k-1. -/
def dupPairs : List Point → Nat
  | p :: q :: rest => (if q = p then 1 else 0) + dupPairs (q :: rest)
  | _ => 0

/-- One when the ring starts with the given previous point (so its first
vertex is skipped), zero otherwise. -/
def headEqCarry (prev : Point) : List Point → Nat
  | [] => 0
  | p :: _ => if p = prev then 1 else 0

/-!  Helper lemmas about the ring point loop. -/

theorem dupPairs_cons (p : Point) (rest : List Point) :
    dupPairs (p :: rest) = headEqCarry p rest + dupPairs rest := by
  cases rest <;> simp [dupPairs, headEqCarry]

theorem ringStep_nil (prev : Point) : ringStep prev [] = ([], prev) := rfl

theorem ringStep_cons (prev p : Point) (rest : List Point) :
    ringStep prev (p :: rest) =
      if p = prev then ringStep p rest
      else (p :: (ringStep p rest).1, (ringStep p rest).2) := rfl

theorem headEqCarry_cons (prev p : Point) (t : List Point) :
    headEqCarry prev (p :: t) = if p = prev then 1 else 0 := rfl

theorem ringStep_length (r : List Point) : ∀ prev : Point,
    ((ringStep prev r).1).length + dupPairs r + headEqCarry prev r = r.length := by
  induction r with
  | nil => intro prev; simp [ringStep, dupPairs, headEqCarry]
  | cons p rest ih =>
    intro prev
    rw [ringStep_cons, dupPairs_cons, headEqCarry_cons]
    by_cases h : p = prev
    · have := ih p
      simp only [if_pos h, List.length_cons]
      omega
    · have := ih p
      simp only [if_neg h, List.length_cons]
      omega

theorem ringStep_head_ne (r : List Point) : ∀ prev q : Point,
    ((ringStep prev r).1).head? = some q → q ≠ prev := by
  induction r with
  | nil => intro prev q h; simp [ringStep] at h
  | cons p rest ih =>
    intro prev q h
    rw [ringStep_cons] at h
    by_cases hp : p = prev
    · rw [if_pos hp] at h
      subst hp
      exact ih p q h
    · rw [if_neg hp] at h
      simp only [List.head?_cons, Option.some.injEq] at h
      subst h
      exact hp

theorem ringStep_chain (r : List Point) : ∀ prev : Point,
    List.Chain' (fun a b => a ≠ b) (ringStep prev r).1 := by
  induction r with
  | nil => intro prev; simp [ringStep]
  | cons p rest ih =>
    intro prev
    rw [ringStep_cons]
    by_cases hp : p = prev
    · rw [if_pos hp]; exact ih p
    · rw [if_neg hp]
      rw [List.chain'_cons']
      refine ⟨?_, ih p⟩
      intro b hb
      exact fun hpb => (ringStep_head_ne rest p b hb) hpb.symm

theorem ringStep_head_emit (prev p : Point) (t : List Point) (h : p ≠ prev) :
    ((ringStep prev (p :: t)).1).head? = some p := by
  rw [ringStep_cons, if_neg h]
  rfl

theorem ringStep_snd (r : List Point) : ∀ prev : Point,
    (ringStep prev r).2 = r.getLastD prev := by
  induction r with
  | nil => intro prev; rfl
  | cons p rest ih =>
    intro prev
    have h2 : (ringStep prev (p :: rest)).2 = (ringStep p rest).2 := by
      rw [ringStep_cons]; by_cases hp : p = prev <;> simp [hp]
    rw [h2, ih p, List.getLastD_cons]

theorem sentinel_ne (p : Point) : sentinel p ≠ p := by
  cases p with
  | mk x y =>
    simp only [sentinel, ne_eq, Point.mk.injEq, not_and]
    intro h
    omega

/-!  Helper lemmas about the attribute encoder. -/

theorem handleFeatureProperties_eq_encodeAll (props : List (String × PropValue)) :
    handleFeatureProperties props =
      (match encodeAll props with
       | some eps => Except.ok eps
       | none => Except.error EncodeError.unknownVariant) := by
  induction props with
  | nil => rfl
  | cons kv rest ih =>
    obtain ⟨k, v⟩ := kv
    cases v <;>
      simp only [handleFeatureProperties, encodeAll, encodeProp, ih] <;>
      cases encodeAll rest <;> rfl

theorem handleFeatureProperties_error (props : List (String × PropValue))
    (e : EncodeError) (h : handleFeatureProperties props = .error e) :
    e = .unknownVariant := by
  rw [handleFeatureProperties_eq_encodeAll] at h
  cases hh : encodeAll props <;> rw [hh] at h <;> simp at h
  exact h.symm

theorem encodeAll_iff_forall2 (props : List (String × PropValue)) :
    ∀ eps, encodeAll props = some eps ↔
      List.Forall₂ (fun kv ep => encodeProp kv = some ep) props eps := by
  induction props with
  | nil =>
    intro eps
    constructor
    · intro h
      simp only [encodeAll, Option.some.injEq] at h
      subst h
      exact List.Forall₂.nil
    · intro h
      cases h
      rfl
  | cons kv rest ih =>
    intro eps
    constructor
    · intro h
      simp only [encodeAll] at h
      cases hk : encodeProp kv <;> rw [hk] at h
      · simp at h
      · cases hr : encodeAll rest <;> rw [hr] at h
        · simp at h
        · simp only [Option.some.injEq] at h
          subst h
          exact List.Forall₂.cons hk ((ih _).mp hr)
    · intro h
      cases h with
      | cons hkv htail =>
        simp only [encodeAll, hkv]
        rw [(ih _).mpr htail]

/-!  Helper lemmas about the feature loop. -/

theorem handleFeature_lineString (ls : List Point) (props : List (String × PropValue)) :
    handleFeature ⟨.lineString ls, props⟩ = handleLineStringFeature ⟨.lineString ls, props⟩ := rfl

theorem handleFeature_polygon (rings : List (List Point)) (props : List (String × PropValue)) :
    handleFeature ⟨.polygon rings, props⟩ = handlePolygonFeature ⟨.polygon rings, props⟩ := rfl

theorem handleFeature_other (g : Geometry) (props : List (String × PropValue))
    (h1 : g.which ≠ 1) (h2 : g.which ≠ 2) :
    handleFeature ⟨g, props⟩ = .ok none := by
  simp only [handleFeature]
  rw [if_neg h1, if_neg h2]

theorem keptFeature_of_some (f : Feature) (ef : EncodedFeature)
    (h : handleFeature f = .ok (some ef)) : keptFeature f = true := by
  obtain ⟨g, props⟩ := f
  cases g with
  | lineString ls =>
    rw [handleFeature_lineString] at h
    simp only [handleLineStringFeature] at h
    by_cases hm : measureSq ls = 0
    · rw [if_pos hm] at h; simp at h
    · simp only [keptFeature, if_neg hm]
  | polygon rings => rfl
  | point p =>
    rw [handleFeature_other _ _ (by simp [Geometry.which]) (by simp [Geometry.which])] at h
    simp at h
  | multiPoint ps =>
    rw [handleFeature_other _ _ (by simp [Geometry.which]) (by simp [Geometry.which])] at h
    simp at h
  | multiLineString lss =>
    rw [handleFeature_other _ _ (by simp [Geometry.which]) (by simp [Geometry.which])] at h
    simp at h
  | multiPolygon polys =>
    rw [handleFeature_other _ _ (by simp [Geometry.which]) (by simp [Geometry.which])] at h
    simp at h
  | geometryCollection gs =>
    rw [handleFeature_other _ _ (by simp [Geometry.which]) (by simp [Geometry.which])] at h
    simp at h

theorem keptFeature_of_none (f : Feature)
    (h : handleFeature f = .ok none) : keptFeature f = false := by
  obtain ⟨g, props⟩ := f
  cases g with
  | lineString ls =>
    rw [handleFeature_lineString] at h
    simp only [handleLineStringFeature] at h
    by_cases hm : measureSq ls = 0
    · simp only [keptFeature, if_pos hm]
    · rw [if_neg hm] at h
      cases hp : handleFeatureProperties props <;> rw [hp] at h <;> simp at h
  | polygon rings =>
    rw [handleFeature_polygon] at h
    simp only [handlePolygonFeature] at h
    cases rings with
    | nil => simp at h
    | cons r0 rs =>
      cases r0 with
      | nil => simp at h
      | cons p0 t =>
        simp only [List.head?_cons] at h
        cases hp : handleFeatureProperties props <;> rw [hp] at h <;> simp at h
  | point p => rfl
  | multiPoint ps => rfl
  | multiLineString lss => rfl
  | multiPolygon polys => rfl
  | geometryCollection gs => rfl

theorem encodeFeatures_skip (f : Feature) (h : handleFeature f = .ok none) :
    ∀ pre post : List Feature,
      encodeFeatures (pre ++ f :: post) = encodeFeatures (pre ++ post) := by
  intro pre post
  induction pre with
  | nil => simp only [List.nil_append, encodeFeatures, h]
  | cons g gs ih =>
    have e1 : encodeFeatures ((g :: gs) ++ f :: post) =
        match handleFeature g with
        | .error e => .error e
        | .ok none => encodeFeatures (gs ++ f :: post)
        | .ok (some ef) =>
          match encodeFeatures (gs ++ f :: post) with
          | .error e => .error e
          | .ok rest => .ok (ef :: rest) := rfl
    have e2 : encodeFeatures ((g :: gs) ++ post) =
        match handleFeature g with
        | .error e => .error e
        | .ok none => encodeFeatures (gs ++ post)
        | .ok (some ef) =>
          match encodeFeatures (gs ++ post) with
          | .error e => .error e
          | .ok rest => .ok (ef :: rest) := rfl
    rw [e1, e2, ih]

/-!  Helper lemmas about the registry. -/

theorem mapFind_eq_none_of_not_mem {α : Type} (m : List (String × α)) (k : String)
    (h : k ∉ m.map Prod.fst) : mapFind m k = none := by
  induction m with
  | nil => rfl
  | cons kv rest ih =>
    obtain ⟨k0, v0⟩ := kv
    simp only [List.map_cons, List.mem_cons, not_or] at h
    simp only [mapFind, if_neg h.1]
    exact ih h.2

theorem mapInsert_of_found {α : Type} (m : List (String × α)) (k : String)
    (v0 v : α) (h : mapFind m k = some v0) : mapInsert m k v = m := by
  induction m with
  | nil => simp [mapFind] at h
  | cons kv rest ih =>
    obtain ⟨k0, w⟩ := kv
    simp only [mapFind] at h
    simp only [mapInsert]
    by_cases hk : k = k0
    · rw [if_pos hk]
    · rw [if_neg hk] at h
      rw [if_neg hk, ih h]

theorem mapFind_insert_preserve {α : Type} (m : List (String × α)) (k2 : String)
    (v : α) (k3 : String) (w : α) (h : mapFind m k3 = some w) :
    mapFind (mapInsert m k2 v) k3 = some w := by
  induction m with
  | nil => simp [mapFind] at h
  | cons kv rest ih =>
    obtain ⟨k0, u⟩ := kv
    simp only [mapFind] at h
    simp only [mapInsert]
    by_cases hk2 : k2 = k0
    · rw [if_pos hk2]
      simp only [mapFind]
      exact h
    · rw [if_neg hk2]
      simp only [mapFind]
      by_cases hk3 : k3 = k0
      · rw [if_pos hk3] at h ⊢
        exact h
      · rw [if_neg hk3] at h ⊢
        exact ih h

theorem mapInsert_keys_mem {α : Type} (m : List (String × α)) (k : String) (v : α)
    (x : String) (h : x ∈ (mapInsert m k v).map Prod.fst) :
    x ∈ m.map Prod.fst ∨ x = k := by
  induction m with
  | nil =>
    simp only [mapInsert, List.map_cons, List.map_nil, List.mem_singleton] at h
    exact Or.inr h
  | cons kv rest ih =>
    obtain ⟨k0, u⟩ := kv
    simp only [mapInsert] at h
    by_cases hk : k = k0
    · rw [if_pos hk] at h
      exact Or.inl h
    · rw [if_neg hk] at h
      simp only [List.map_cons, List.mem_cons] at h
      rcases h with h | h
      · exact Or.inl (by simp [h])
      · rcases ih h with h2 | h2
        · exact Or.inl (by simp [h2])
        · exact Or.inr h2

theorem mapInsert_nodupKeys {α : Type} (m : List (String × α)) (k : String) (v : α)
    (h : (m.map Prod.fst).Nodup) : ((mapInsert m k v).map Prod.fst).Nodup := by
  induction m with
  | nil => simp [mapInsert]
  | cons kv rest ih =>
    obtain ⟨k0, u⟩ := kv
    simp only [List.map_cons, List.nodup_cons] at h
    simp only [mapInsert]
    by_cases hk : k = k0
    · rw [if_pos hk]
      simp only [List.map_cons, List.nodup_cons]
      exact h
    · rw [if_neg hk]
      simp only [List.map_cons, List.nodup_cons]
      refine ⟨?_, ih h.2⟩
      intro hmem
      rcases mapInsert_keys_mem rest k v k0 hmem with h2 | h2
      · exact h.1 h2
      · exact hk h2.symm

theorem mapErase_absent {α : Type} (m : List (String × α)) (k : String)
    (h : mapFind m k = none) : mapErase m k = m := by
  induction m with
  | nil => rfl
  | cons kv rest ih =>
    obtain ⟨k0, u⟩ := kv
    simp only [mapFind] at h
    by_cases hk : k = k0
    · rw [if_pos hk] at h
      simp at h
    · rw [if_neg hk] at h
      simp only [mapErase, if_neg hk, ih h]

theorem mapFind_erase_self {α : Type} (m : List (String × α)) (k : String)
    (h : (m.map Prod.fst).Nodup) : mapFind (mapErase m k) k = none := by
  induction m with
  | nil => rfl
  | cons kv rest ih =>
    obtain ⟨k0, u⟩ := kv
    simp only [List.map_cons, List.nodup_cons] at h
    simp only [mapErase]
    by_cases hk : k = k0
    · rw [if_pos hk]
      apply mapFind_eq_none_of_not_mem
      rw [hk]
      exact h.1
    · rw [if_neg hk]
      simp only [mapFind, if_neg hk]
      exact ih h.2

theorem tilerGetTile_absent (m : List (String × SpatialIndex)) (k : String)
    (z x y : Int) (h : mapFind m k = none) :
    tilerGetTile m k z x y = .error (.lookupError (keyMissingMsg k)) := by
  simp only [tilerGetTile, h]

/-- A trivial spatial index used to instantiate registry theorems. -/
def emptyIndex : SpatialIndex := fun _ _ _ => []

theorem encodeFeatures_forall2 (fs : List Feature) : ∀ efs : List EncodedFeature,
    encodeFeatures fs = .ok efs →
      List.Forall₂ (fun f ef => handleFeature f = Except.ok (some ef))
        (fs.filter keptFeature) efs := by
  induction fs with
  | nil =>
    intro efs h
    simp only [encodeFeatures, Except.ok.injEq] at h
    subst h
    simp
  | cons f rest ih =>
    intro efs h
    simp only [encodeFeatures] at h
    cases hf : handleFeature f with
    | error e => rw [hf] at h; simp at h
    | ok o =>
      cases o with
      | none =>
        rw [hf] at h
        have hk := keptFeature_of_none f hf
        rw [List.filter_cons, hk]
        exact ih efs h
      | some ef =>
        rw [hf] at h
        cases hr : encodeFeatures rest with
        | error e => rw [hr] at h; simp at h
        | ok tailEfs =>
          rw [hr] at h
          simp only [Except.ok.injEq] at h
          subst h
          have hk := keptFeature_of_some f ef hf
          rw [List.filter_cons, hk]
          simp only [if_pos]
          exact List.Forall₂.cons hf (ih tailEfs hr)

/-!  Claim theorems. -/

/-- C1 counterexample: a map whose only value is boolean-tagged makes the
attribute encoder fail with the unknown-variant error, contradicting the
claim that a boolean-tagged value is encoded as a boolean property and
that only tags outside the four listed kinds fail. -/
theorem booleanAttribute_fails :
    handleFeatureProperties [("flag", PropValue.boolean true)] =
      Except.error EncodeError.unknownVariant := rfl

/-- C1 (amended): the attribute encoder handles exactly the
unsigned-integer, double and string tags.  It equals the pointwise
spec-side encoding encodeAll: when every entry is one of those three
kinds, every key is emitted exactly once, in order, with its correct
type and value; any other tag, the boolean tag included, makes encoding
fail with the unknown-variant error (encodeProp is none on boolean). -/
theorem attributeEncoder_characterization :
    (∀ props, handleFeatureProperties props =
      (match encodeAll props with
       | some eps => Except.ok eps
       | none => Except.error EncodeError.unknownVariant))
    ∧ (∀ props eps, encodeAll props = some eps ↔
        List.Forall₂ (fun kv ep => encodeProp kv = some ep) props eps)
    ∧ (∀ (k : String) (b : Bool), encodeProp (k, PropValue.boolean b) = none) :=
  ⟨handleFeatureProperties_eq_encodeAll, encodeAll_iff_forall2, fun _ _ => rfl⟩

/-- C1 witness: the characterization evaluated on a concrete two-entry
supported map. -/
theorem attributeEncoder_characterization_witness :
    handleFeatureProperties [("a", PropValue.uint 3), ("b", PropValue.str "s")] =
      Except.ok [EncodedProp.uintProp "a" 3, EncodedProp.strProp "b" "s"] := by
  rw [attributeEncoder_characterization.1 [("a", PropValue.uint 3), ("b", PropValue.str "s")]]
  rfl

/-- C2 counterexample: a point-geometry feature does not make encoding
fail; handleFeature returns success having emitted nothing, so the claim
that such a feature aborts the tile encode with an unsupported-geometry
error is false. -/
theorem pointGeometry_noError :
    handleFeature ⟨Geometry.point ⟨1, 2⟩, []⟩ = Except.ok none := rfl

/-- C2 (amended): a feature whose geometry tag is neither line-string
(which() = 1) nor polygon (which() = 2) is silently skipped: the
commented-out default branch means handleFeature returns without error
and without emitting anything, and the rest of the tile encodes exactly
as if the feature were absent; the getTile request does not fail. -/
theorem unsupportedGeometry_silentlySkipped (g : Geometry)
    (props : List (String × PropValue)) (pre post : List Feature)
    (h1 : g.which ≠ 1) (h2 : g.which ≠ 2) :
    handleFeature ⟨g, props⟩ = Except.ok none
    ∧ encodeFeatures (pre ++ ⟨g, props⟩ :: post) = encodeFeatures (pre ++ post) := by
  have h := handleFeature_other g props h1 h2
  exact ⟨h, encodeFeatures_skip _ h pre post⟩

/-- C2 witness: the amended claim evaluated on a concrete point-geometry
feature inside a one-feature list. -/
theorem unsupportedGeometry_silentlySkipped_witness :
    handleFeature ⟨Geometry.point ⟨3, 4⟩, []⟩ = Except.ok none
    ∧ encodeFeatures ([] ++ ⟨Geometry.point ⟨3, 4⟩, []⟩ :: []) = encodeFeatures ([] ++ []) :=
  unsupportedGeometry_silentlySkipped (Geometry.point ⟨3, 4⟩) [] [] []
    (by decide) (by decide)

/-- C3 counterexample: in the polygon [[(0,0)], [(0,0)]] the second ring
has N = 1 vertices and M = 0 adjacent duplicate pairs, yet its stream is
empty and its first vertex is not emitted, because the previous-point
state carries over from the first ring; the claim that every ring of
N vertices and M duplicate pairs emits N - M points with its first
vertex always emitted is false beyond the first ring. -/
theorem secondRing_firstVertex_suppressed :
    handlePolygonFeature ⟨Geometry.polygon [[⟨0, 0⟩], [⟨0, 0⟩]], []⟩ =
      Except.ok (some ⟨EncodedGeom.polygon [⟨1, [⟨0, 0⟩]⟩, ⟨1, []⟩], []⟩)
    ∧ dupPairs [(⟨0, 0⟩ : Point)] = 0 := ⟨rfl, rfl⟩

/-- C3 (amended): each streamed ring emits exactly
N - M - carry points, where N is the vertex count, M the number of
adjacent duplicate pairs and carry is 1 exactly when the ring's first
vertex equals the incoming previous point; no two consecutive emitted
points are equal; a ring's first vertex is emitted whenever it differs
from the incoming previous point; the previous point leaving a ring is
its last raw vertex, which the next ring of the same polygon inherits;
and the sentinel differs from the first vertex it is built from, so the
first ring's first vertex is always emitted. -/
theorem ringStream_characterization :
    (∀ (prev : Point) (r : List Point),
      ((ringStep prev r).1).length + dupPairs r + headEqCarry prev r = r.length)
    ∧ (∀ (prev : Point) (r : List Point),
        List.Chain' (fun a b : Point => a ≠ b) (ringStep prev r).1)
    ∧ (∀ (prev p : Point) (t : List Point), p ≠ prev →
        ((ringStep prev (p :: t)).1).head? = some p)
    ∧ (∀ (prev : Point) (r : List Point), (ringStep prev r).2 = r.getLastD prev)
    ∧ (∀ p : Point, sentinel p ≠ p)
    ∧ (∀ (prev : Point) (r : List Point) (rs : List (List Point)),
        ringsEmit prev (r :: rs) =
          ⟨r.length, (ringStep prev r).1⟩ :: ringsEmit (ringStep prev r).2 rs) :=
  ⟨fun prev r => ringStep_length r prev,
   fun prev r => ringStep_chain r prev,
   fun prev p t h => ringStep_head_emit prev p t h,
   fun prev r => ringStep_snd r prev,
   sentinel_ne,
   fun _ _ _ => rfl⟩

/-- C3 witness: the first-vertex conjunct evaluated on a concrete ring
whose head differs from the previous point. -/
theorem ringStream_characterization_witness :
    ((ringStep (Point.mk 0 0) [Point.mk 1 1]).1).head? = some (Point.mk 1 1) :=
  ringStream_characterization.2.2.1 (Point.mk 0 0) (Point.mk 1 1) [] (by decide)

/-- C4 (confirmed): add_ring declares each ring's raw vertex count, the
declared counts are exactly the input ring lengths and are never
corrected; the streamed points never exceed the declared count, and
whenever at least one point of a ring is skipped (an adjacent duplicate
or a first vertex equal to the incoming previous point) the declared
count is strictly greater than the number of points emitted. -/
theorem ringDeclaredCounts :
    (∀ (prev : Point) (rings : List (List Point)),
      (ringsEmit prev rings).map EncodedRing.declared = rings.map List.length)
    ∧ (∀ (prev : Point) (r : List Point), ((ringStep prev r).1).length ≤ r.length)
    ∧ (∀ (prev : Point) (r : List Point), 1 ≤ dupPairs r + headEqCarry prev r →
        ((ringStep prev r).1).length < r.length) := by
  refine ⟨?_, ?_, ?_⟩
  · intro prev rings
    induction rings generalizing prev with
    | nil => rfl
    | cons r rs ih => simp [ringsEmit, ih]
  · intro prev r
    have := ringStep_length r prev
    omega
  · intro prev r h
    have := ringStep_length r prev
    omega

/-- C4 witness: a ring with one adjacent duplicate pair emits strictly
fewer points than its declared count of 2. -/
theorem ringDeclaredCounts_witness :
    1 ≤ dupPairs [Point.mk 1 1, Point.mk 1 1] +
        headEqCarry (Point.mk 0 0) [Point.mk 1 1, Point.mk 1 1]
    ∧ ((ringStep (Point.mk 0 0) [Point.mk 1 1, Point.mk 1 1]).1).length < 2 :=
  ⟨by decide, ringDeclaredCounts.2.2 (Point.mk 0 0) [Point.mk 1 1, Point.mk 1 1] (by decide)⟩

/-- C5 counterexample: a ResultTile holding one point-geometry feature
(not a zero-length line string) encodes to an empty feature list, so the
claim that no feature is removed other than zero-length line strings is
false. -/
theorem pointFeature_droppedWithoutError :
    tilerGetTile [("k", fun _ _ _ => [⟨Geometry.point ⟨0, 0⟩, []⟩])] "k" 0 0 0 =
      Except.ok ⟨"default", []⟩ := rfl

/-- C5 (amended): a successful getTile builds exactly one layer named
"default", and the encoded feature sequence corresponds one-to-one, in
order, to the input ResultTile sequence restricted to the kept features:
line strings of nonzero measured length and polygons.  Zero-length line
strings and features of any other geometry tag are the only ones
removed; nothing is reordered. -/
theorem getTile_layer_and_order (m : List (String × SpatialIndex)) (k : String)
    (idx : SpatialIndex) (z x y : Int) (t : EncodedTile)
    (hfind : mapFind m k = some idx)
    (ht : tilerGetTile m k z x y = .ok t) :
    t.layerName = "default"
    ∧ List.Forall₂ (fun f ef => handleFeature f = Except.ok (some ef))
        ((idx z x y).filter keptFeature) t.features := by
  simp only [tilerGetTile, hfind] at ht
  cases he : encodeFeatures (idx z x y) <;> rw [he] at ht
  · simp at ht
  · simp only [Except.ok.injEq] at ht
    subst ht
    exact ⟨rfl, encodeFeatures_forall2 _ _ he⟩

/-- C5 witness: the amended claim evaluated on a concrete registry whose
index returns no features. -/
theorem getTile_layer_and_order_witness :
    (EncodedTile.mk "default" []).layerName = "default"
    ∧ List.Forall₂ (fun f ef => handleFeature f = Except.ok (some ef))
        ((emptyIndex 0 0 0).filter keptFeature) (EncodedTile.mk "default" []).features :=
  getTile_layer_and_order [("a", emptyIndex)] "a" emptyIndex 0 0 0
    (EncodedTile.mk "default" []) rfl rfl

/-- C6 (confirmed): a line-string feature whose measured length is
exactly zero is dropped before any builder is created: handleFeature
returns success with nothing emitted, no attribute is touched whatever
the property map holds, and the feature leaves the encoded sequence of
any tile unchanged. -/
theorem zeroLengthLine_dropped (ls : List Point) (props : List (String × PropValue))
    (pre post : List Feature) (h : measureSq ls = 0) :
    handleFeature ⟨Geometry.lineString ls, props⟩ = Except.ok none
    ∧ encodeFeatures (pre ++ ⟨Geometry.lineString ls, props⟩ :: post) =
        encodeFeatures (pre ++ post) := by
  have hf : handleFeature ⟨Geometry.lineString ls, props⟩ = Except.ok none := by
    rw [handleFeature_lineString]
    simp only [handleLineStringFeature, if_pos h]
  exact ⟨hf, encodeFeatures_skip _ hf pre post⟩

/-- C6 witness: the two-identical-point line string of the spec, with an
attribute that the encoder could not even encode, still contributes
nothing and raises nothing. -/
theorem zeroLengthLine_dropped_witness :
    handleFeature ⟨Geometry.lineString [⟨2, 2⟩, ⟨2, 2⟩],
        [("flag", PropValue.boolean true)]⟩ = Except.ok none
    ∧ encodeFeatures ([] ++ ⟨Geometry.lineString [⟨2, 2⟩, ⟨2, 2⟩],
        [("flag", PropValue.boolean true)]⟩ :: []) = encodeFeatures ([] ++ []) :=
  zeroLengthLine_dropped [⟨2, 2⟩, ⟨2, 2⟩] [("flag", PropValue.boolean true)] [] []
    (by decide)

/-- C7 (confirmed): a line-string feature of nonzero measured length
whose properties encode successfully is committed with the declared
point count equal to the input point count and the streamed points equal
to the input points in their original order with no deduplication. -/
theorem nonzeroLine_pointsPreserved (ls : List Point) (props : List (String × PropValue))
    (eps : List EncodedProp) (h0 : ¬ measureSq ls = 0)
    (hp : handleFeatureProperties props = Except.ok eps) :
    handleFeature ⟨Geometry.lineString ls, props⟩ =
      Except.ok (some ⟨EncodedGeom.lineString ls.length ls, eps⟩) := by
  rw [handleFeature_lineString]
  simp only [handleLineStringFeature, if_neg h0, hp]

/-- C7 witness: a two-point segment of length one with an empty property
map is emitted verbatim. -/
theorem nonzeroLine_pointsPreserved_witness :
    handleFeature ⟨Geometry.lineString [⟨0, 0⟩, ⟨1, 0⟩], []⟩ =
      Except.ok (some ⟨EncodedGeom.lineString 2 [⟨0, 0⟩, ⟨1, 0⟩], []⟩) :=
  nonzeroLine_pointsPreserved [⟨0, 0⟩, ⟨1, 0⟩] [] [] (by decide) rfl

/-- C8 (confirmed): loading a key that is already registered is a no-op
that leaves the whole registry, and in particular the existing entry's
slot, unchanged; and no load ever changes or removes an existing
binding. -/
theorem load_existingKey_noop (m : List (String × SpatialIndex)) (k : String)
    (v0 idx : SpatialIndex) (h : mapFind m k = some v0) :
    tilerLoad m k idx = m
    ∧ (∀ (m2 : List (String × SpatialIndex)) (k2 : String) (idx2 : SpatialIndex)
         (k3 : String) (w : SpatialIndex), mapFind m2 k3 = some w →
           mapFind (tilerLoad m2 k2 idx2) k3 = some w) :=
  ⟨mapInsert_of_found m k v0 idx h,
   fun m2 k2 idx2 k3 w hw => mapFind_insert_preserve m2 k2 idx2 k3 w hw⟩

/-- C8 witness: reloading the registered key of a one-entry registry
leaves the registry unchanged. -/
theorem load_existingKey_noop_witness :
    tilerLoad [("a", emptyIndex)] "a" emptyIndex = [("a", emptyIndex)] :=
  (load_existingKey_noop [("a", emptyIndex)] "a" emptyIndex emptyIndex rfl).1

/-- C9 (confirmed): after load(k) followed by unload(k) on a registry
with distinct keys, k is absent; a getTile on any absent key fails with
the lookup error whose message is the fixed prefix followed by that very
key, never a generic failure; and unloading an absent key leaves the
registry untouched. -/
theorem unloadThenLookup_fails (m : List (String × SpatialIndex)) (k : String)
    (idx : SpatialIndex) (z x y : Int)
    (hnd : (m.map Prod.fst).Nodup) :
    mapFind (tilerUnload (tilerLoad m k idx) k) k = none
    ∧ tilerGetTile (tilerUnload (tilerLoad m k idx) k) k z x y =
        .error (.lookupError (keyMissingPre ++ k))
    ∧ (∀ (m2 : List (String × SpatialIndex)) (k2 : String),
        mapFind m2 k2 = none → tilerUnload m2 k2 = m2)
    ∧ (∀ (m2 : List (String × SpatialIndex)) (k2 : String) (z2 x2 y2 : Int),
        mapFind m2 k2 = none →
          tilerGetTile m2 k2 z2 x2 y2 = .error (.lookupError (keyMissingPre ++ k2))) := by
  have habsent : mapFind (tilerUnload (tilerLoad m k idx) k) k = none :=
    mapFind_erase_self (tilerLoad m k idx) k (mapInsert_nodupKeys m k idx hnd)
  refine ⟨habsent, tilerGetTile_absent _ k z x y habsent, ?_, ?_⟩
  · intro m2 k2 h2
    exact mapErase_absent m2 k2 h2
  · intro m2 k2 z2 x2 y2 h2
    exact tilerGetTile_absent m2 k2 z2 x2 y2 h2

/-- C9 witness: loading then unloading a key on the empty registry makes
a lookup of that key fail with the message naming it. -/
theorem unloadThenLookup_fails_witness :
    mapFind (tilerUnload (tilerLoad [] "a" emptyIndex) "a") "a" = none
    ∧ tilerGetTile (tilerUnload (tilerLoad [] "a" emptyIndex) "a") "a" 0 0 0 =
        .error (.lookupError (keyMissingPre ++ "a")) :=
  ⟨(unloadThenLookup_fails [] "a" emptyIndex 0 0 0 (by simp)).1,
   (unloadThenLookup_fails [] "a" emptyIndex 0 0 0 (by simp)).2.1⟩

/-- C10 (confirmed): the polygon path builds its sentinel from
polygon[0][0] before any emptiness check, so the out-of-bounds error
branch of the total embedding is taken exactly when the polygon has no
ring or its first ring has no vertex; every polygon feature reaching the
encoder without that error has at least one ring whose first ring is
nonempty. -/
theorem polygonSentinel_oob_iff (rings : List (List Point))
    (props : List (String × PropValue)) :
    handlePolygonFeature ⟨Geometry.polygon rings, props⟩ =
        Except.error EncodeError.outOfBounds
      ↔ rings = [] ∨ rings.head? = some [] := by
  cases rings with
  | nil => simp [handlePolygonFeature]
  | cons r0 rs =>
    cases r0 with
    | nil => simp [handlePolygonFeature]
    | cons p0 t =>
      simp only [handlePolygonFeature, List.head?_cons]
      constructor
      · intro h
        cases hp : handleFeatureProperties props <;> rw [hp] at h
        · have he := handleFeatureProperties_error props _ hp
          subst he
          simp at h
        · simp at h
      · intro h
        rcases h with h | h
        · simp at h
        · simp at h

/-- C10 witness: the empty polygon takes the out-of-bounds branch. -/
theorem polygonSentinel_oob_iff_witness :
    handlePolygonFeature ⟨Geometry.polygon [], []⟩ =
      Except.error EncodeError.outOfBounds :=
  (polygonSentinel_oob_iff [] []).mpr (Or.inl rfl)
